import Mathlib

/-!
Shallow embedding of the E-COMMERCE-CATALOG repository (src/E_COMMERCE.js).

The source is a MongoDB shell script over a `products` collection of
product documents with an embedded `variants` array.  We embed the
exercised command surface as operations on an explicit in-memory store:

* `insertMany` (lines 46-134): appends products, assigning each a fresh
  identity (MongoDB assigns an ObjectId to documents lacking `_id`;
  modelled by a `nextId` counter).
* `find` with a conjunctive predicate (lines 141-169): equality on
  `name`/`category`, `$lt` on `price`, and nested-array clauses
  `variants.color` / `variants.size` / `variants.stock` / `variants._id`
  with any-element-matches semantics.
* `find` with an inclusion projection (lines 156-181), including
  variant sub-field projection and explicit `_id: 0` exclusion;
  per MongoDB semantics the top-level `_id` is included by default
  unless explicitly excluded.
* `updateOne` (lines 210-252): updates the first matching document only.
  The exercised update operators: `$set` on `price` (updateOnePrice),
  `$push` to `variants` (appendVariant), positional `$set` on
  `variants.$.stock` (setVariantStock, updating exactly the first array
  element matched by the `variants._id` query clause), and `$pull` from
  `variants` by `_id` (removeVariant).
* `aggregate` `$group` by category + `$sort` by count descending
  (lines 185-188, countByCategory).  MongoDB leaves the order of groups
  and of sort-ties unspecified; following the specification we model
  groups in order of first appearance and the sort as stable.

Stock and price are embedded as `Int`: the script performs no
validation (the Mongoose `min: 0` schema bounds are inside the
commented-out section 5, lines 258-367), so negative values are
representable and stored as given.
-/

namespace ECommerce

structure Variant where
  vid : String
  color : String
  size : String
  stock : Int
deriving Repr, DecidableEq

structure Product where
  pid : Nat
  name : String
  price : Int
  category : String
  description : Option String
  variants : List Variant
deriving Repr, DecidableEq

/-- A product document as supplied to `insertMany` (no `_id` yet). -/
structure ProductInput where
  name : String
  price : Int
  category : String
  description : Option String
  variants : List Variant
deriving Repr, DecidableEq

structure Store where
  products : List Product
  nextId : Nat
deriving Repr, DecidableEq

def emptyStore : Store := { products := [], nextId := 0 }

/-- One conjunct of a query document, as exercised by the script. -/
inductive Clause where
  | nameEq (v : String)
  | categoryEq (v : String)
  | priceLt (v : Int)
  | variantsColorEq (v : String)
  | variantsSizeEq (v : String)
  | variantsStockLt (v : Int)
  | variantsIdEq (v : String)
deriving Repr, DecidableEq

def Clause.holds (c : Clause) (p : Product) : Bool :=
  match c with
  | .nameEq v => p.name == v
  | .categoryEq v => p.category == v
  | .priceLt v => decide (p.price < v)
  | .variantsColorEq v => p.variants.any (fun x => x.color == v)
  | .variantsSizeEq v => p.variants.any (fun x => x.size == v)
  | .variantsStockLt v => p.variants.any (fun x => decide (x.stock < v))
  | .variantsIdEq v => p.variants.any (fun x => x.vid == v)

/-- A query document is a conjunction of clauses. -/
def docMatches (q : List Clause) (p : Product) : Bool :=
  q.all (fun c => c.holds p)

def mkProduct (n : Nat) (p : ProductInput) : Product :=
  { pid := n, name := p.name, price := p.price, category := p.category,
    description := p.description, variants := p.variants }

def insertBatch (n : Nat) : List ProductInput → List Product
  | [] => []
  | p :: ps => mkProduct n p :: insertBatch (n + 1) ps

/-- `db.products.insertMany`: assigns fresh identities and appends. -/
def insertMany (s : Store) (ps : List ProductInput) : Store :=
  { products := s.products ++ insertBatch s.nextId ps,
    nextId := s.nextId + ps.length }

/-- `db.products.find(query)`: all documents matching the query, in
insertion order. -/
def find (s : Store) (q : List Clause) : List Product :=
  s.products.filter (docMatches q)

/-- `db.products.updateOne(query, update)` core: apply `f` to the first
matching document only; return whether a match was found. -/
def updateFirstAux (q : List Clause) (f : Product → Product) :
    List Product → Bool × List Product
  | [] => (false, [])
  | p :: ps =>
    if docMatches q p then (true, f p :: ps)
    else
      let r := updateFirstAux q f ps
      (r.1, p :: r.2)

def updateOne (s : Store) (q : List Clause) (f : Product → Product) :
    Bool × Store :=
  let r := updateFirstAux q f s.products
  (r.1, { s with products := r.2 })

/-- Script 4.1 (lines 210-213): `updateOne(query, { $set: { price: k } })`. -/
def updateOnePrice (s : Store) (q : List Clause) (k : Int) : Bool × Store :=
  updateOne s q (fun p => { p with price := k })

/-- Script 4.2 (lines 217-229): `updateOne(query, { $push: { variants: v } })`.
The pushed variant carries its identity, as in the script (line 222). -/
def appendVariant (s : Store) (q : List Clause) (v : Variant) : Bool × Store :=
  updateOne s q (fun p => { p with variants := p.variants ++ [v] })

/-- Positional `$` update of `variants.$.stock`: set the stock of the
first array element matched by the `variants._id` clause. -/
def setStockAt (vid : String) (k : Int) : List Variant → List Variant
  | [] => []
  | v :: vs =>
    if v.vid == vid then { v with stock := k } :: vs
    else v :: setStockAt vid k vs

/-- Script 4.3 (lines 233-241): `updateOne({ ..query, "variants._id": vid },
{ $set: { "variants.$.stock": k } })`. -/
def setVariantStock (s : Store) (q : List Clause) (vid : String) (k : Int) :
    Bool × Store :=
  updateOne s (q ++ [Clause.variantsIdEq vid])
    (fun p => { p with variants := setStockAt vid k p.variants })

/-- Script 4.4 (lines 245-252): `updateOne(query,
{ $pull: { variants: { _id: vid } } })`. -/
def removeVariant (s : Store) (q : List Clause) (vid : String) : Bool × Store :=
  updateOne s q
    (fun p => { p with variants := p.variants.filter (fun v => !(v.vid == vid)) })

/-- Categories in order of first appearance.  MongoDB leaves the order of
`$group` output unspecified; the specification fixes first-appearance
order, which is the deterministic in-memory reading we embed. -/
def firstCats : List Product → List String
  | [] => []
  | p :: ps => p.category :: (firstCats ps).filter (fun c => !(c == p.category))

/-- `$sum: 1` over the group of a category. -/
def countCat (c : String) (ps : List Product) : Nat :=
  (ps.filter (fun p => p.category == c)).length

/-- `$group: { _id: "$category", count: { $sum: 1 } }`. -/
def categoryCounts (ps : List Product) : List (String × Nat) :=
  (firstCats ps).map (fun c => (c, countCat c ps))

/-- Stable insertion for the descending-by-count sort: an element moves
past another only when its count is strictly larger, so ties keep their
relative order. -/
def insertByCount (x : String × Nat) : List (String × Nat) → List (String × Nat)
  | [] => [x]
  | y :: ys => if y.2 ≤ x.2 then x :: y :: ys else y :: insertByCount x ys

/-- `$sort: { count: -1 }`, modelled as a stable sort per the spec. -/
def sortByCountDesc : List (String × Nat) → List (String × Nat)
  | [] => []
  | x :: l => insertByCount x (sortByCountDesc l)

/-- Script 3.9 (lines 185-188): group by category, count, sort by count
descending. -/
def countByCategory (s : Store) : List (String × Nat) :=
  sortByCountDesc (categoryCounts s.products)

/-- A projected variant sub-document: only requested sub-fields present. -/
structure ProjVariant where
  color : Option String
  size : Option String
  stock : Option Int
deriving Repr, DecidableEq

/-- A projected product document: a field is `none` when the projection
omits it. -/
structure ProjDoc where
  pid : Option Nat
  name : Option String
  price : Option Int
  category : Option String
  description : Option String
  variants : Option (List ProjVariant)
deriving Repr, DecidableEq

/-- An inclusion projection document, e.g. lines 157 and 173-181:
`{ name: 1, "variants.color": 1, "variants.stock": 1, _id: 0 }`.
Per MongoDB, the top-level `_id` is included by default and omitted only
under an explicit `_id: 0` (`excludeId`). -/
structure Projection where
  name : Bool
  price : Bool
  category : Bool
  description : Bool
  variantsColor : Bool
  variantsSize : Bool
  variantsStock : Bool
  excludeId : Bool
deriving Repr, DecidableEq

/-- The `variants` field appears iff some variant sub-field is requested. -/
def Projection.wantsVariants (pr : Projection) : Bool :=
  pr.variantsColor || pr.variantsSize || pr.variantsStock

def applyProj (pr : Projection) (p : Product) : ProjDoc :=
  { pid := if pr.excludeId then none else some p.pid,
    name := if pr.name then some p.name else none,
    price := if pr.price then some p.price else none,
    category := if pr.category then some p.category else none,
    description := if pr.description then p.description else none,
    variants :=
      if pr.wantsVariants then
        some (p.variants.map (fun v =>
          { color := if pr.variantsColor then some v.color else none,
            size := if pr.variantsSize then some v.size else none,
            stock := if pr.variantsStock then some v.stock else none }))
      else none }

/-- `db.products.find(query, projection)`. -/
def findProj (s : Store) (q : List Clause) (pr : Projection) : List ProjDoc :=
  (s.products.filter (docMatches q)).map (applyProj pr)

/-- The sample data inserted at lines 46-134 of the script. -/
def sampleInputs : List ProductInput :=
  [ { name := "Winter Jacket", price := 200, category := "Apparel",
      description := some "Warm and stylish winter jacket for cold weather",
      variants :=
        [ { vid := "686f68ed2bf5384209b236b2", color := "Black", size := "S",
            stock := 8 },
          { vid := "686f68ed2bf5384209b236b3", color := "Gray", size := "M",
            stock := 12 } ] },
    { name := "Smartphone", price := 699, category := "Electronics",
      description := some "Latest model smartphone with advanced features",
      variants := [] },
    { name := "Running Shoes", price := 120, category := "Footwear",
      description := some "Comfortable running shoes for daily exercise",
      variants :=
        [ { vid := "686f68ed2bf5384209b236af", color := "Red", size := "M",
            stock := 10 },
          { vid := "686f68ed2bf5384209b236b1", color := "Blue", size := "L",
            stock := 5 } ] },
    { name := "Laptop", price := 1299, category := "Electronics",
      description := some "High-performance laptop for work and gaming",
      variants :=
        [ { vid := "686f68ed2bf5384209b236c1", color := "Silver",
            size := "15-inch", stock := 3 },
          { vid := "686f68ed2bf5384209b236c2", color := "Space Gray",
            size := "13-inch", stock := 7 } ] },
    { name := "Yoga Mat", price := 45, category := "Fitness",
      description := some "Non-slip yoga mat for comfortable practice",
      variants :=
        [ { vid := "686f68ed2bf5384209b236d1", color := "Purple",
            size := "Standard", stock := 20 },
          { vid := "686f68ed2bf5384209b236d2", color := "Green",
            size := "Extra Thick", stock := 15 } ] } ]

/-- The store right after initialization (drop + insertMany of the samples). -/
def initStore : Store := insertMany emptyStore sampleInputs

/-! ### Helper lemmas about the update core -/

theorem docMatches_append (q r : List Clause) (p : Product) :
    docMatches (q ++ r) p = (docMatches q p && docMatches r p) :=
  List.all_append

theorem docMatches_nil (p : Product) : docMatches [] p = true := rfl

theorem docMatches_variantsIdEq (vid : String) (p : Product) :
    docMatches [Clause.variantsIdEq vid] p
      = p.variants.any (fun x => x.vid == vid) := by
  simp [docMatches, Clause.holds]

theorem updateFirstAux_nomatch (q : List Clause) (f : Product → Product) :
    ∀ ps : List Product, (∀ p ∈ ps, docMatches q p = false) →
      updateFirstAux q f ps = (false, ps)
  | [], _ => rfl
  | p :: ps, h => by
    have hp := h p (List.mem_cons_self p ps)
    have ih := updateFirstAux_nomatch q f ps
      (fun x hx => h x (List.mem_cons_of_mem p hx))
    simp [updateFirstAux, hp, ih]

theorem updateFirstAux_first (q : List Clause) (f : Product → Product)
    (p : Product) (hp : docMatches q p = true) :
    ∀ (l r : List Product), (∀ x ∈ l, docMatches q x = false) →
      updateFirstAux q f (l ++ p :: r) = (true, l ++ f p :: r)
  | [], r, _ => by simp [updateFirstAux, hp]
  | x :: l, r, hl => by
    have hx := hl x (List.mem_cons_self x l)
    have ih := updateFirstAux_first q f p hp l r
      (fun y hy => hl y (List.mem_cons_of_mem x hy))
    simp [updateFirstAux, hx, ih]

theorem updateFirstAux_mem (q : List Clause) (f : Product → Product) :
    ∀ (ps : List Product) (x : Product), x ∈ (updateFirstAux q f ps).2 →
      x ∈ ps ∨ ∃ y ∈ ps, x = f y
  | [], x, hx => by simp [updateFirstAux] at hx
  | p :: ps, x, hx => by
    cases hp : docMatches q p with
    | true =>
      simp [updateFirstAux, hp] at hx
      rcases hx with hx | hx
      · exact Or.inr ⟨p, List.mem_cons_self p ps, hx⟩
      · exact Or.inl (List.mem_cons_of_mem p hx)
    | false =>
      simp [updateFirstAux, hp] at hx
      rcases hx with hx | hx
      · exact Or.inl (by simp [hx])
      · rcases updateFirstAux_mem q f ps x hx with h1 | ⟨y, hy, hxy⟩
        · exact Or.inl (List.mem_cons_of_mem p h1)
        · exact Or.inr ⟨y, List.mem_cons_of_mem p hy, hxy⟩

theorem setStockAt_first (vid : String) (k : Int) (v : Variant)
    (hv : v.vid = vid) :
    ∀ (l r : List Variant), (∀ x ∈ l, x.vid ≠ vid) →
      setStockAt vid k (l ++ v :: r) = l ++ { v with stock := k } :: r
  | [], r, _ => by simp [setStockAt, hv]
  | x :: l, r, hl => by
    have hx := hl x (List.mem_cons_self x l)
    have ih := setStockAt_first vid k v hv l r
      (fun y hy => hl y (List.mem_cons_of_mem x hy))
    simp [setStockAt, hx, ih]

theorem setStockAt_mem (vid : String) (k : Int) :
    ∀ (vs : List Variant) (v : Variant), v ∈ setStockAt vid k vs →
      v ∈ vs ∨ ∃ w ∈ vs, v = { w with stock := k }
  | [], v, hv => by simp [setStockAt] at hv
  | w :: vs, v, hv => by
    by_cases hw : w.vid = vid
    · simp [setStockAt, hw] at hv
      rcases hv with hv | hv
      · exact Or.inr ⟨w, List.mem_cons_self w vs, by rw [hw]; exact hv⟩
      · exact Or.inl (List.mem_cons_of_mem w hv)
    · simp [setStockAt, hw] at hv
      rcases hv with hv | hv
      · exact Or.inl (by simp [hv])
      · rcases setStockAt_mem vid k vs v hv with h1 | ⟨y, hy, hvy⟩
        · exact Or.inl (List.mem_cons_of_mem w h1)
        · exact Or.inr ⟨y, List.mem_cons_of_mem w hy, hvy⟩

/-! ### Helper lemmas about grouping and sorting -/

theorem insertByCount_perm (x : String × Nat) :
    ∀ l : List (String × Nat), (insertByCount x l).Perm (x :: l)
  | [] => List.Perm.refl _
  | y :: ys => by
    by_cases h : y.2 ≤ x.2
    · simp [insertByCount, h]
    · simp only [insertByCount, if_neg h]
      exact ((insertByCount_perm x ys).cons y).trans (List.Perm.swap x y ys)

theorem sortByCountDesc_perm :
    ∀ l : List (String × Nat), (sortByCountDesc l).Perm l
  | [] => List.Perm.refl _
  | x :: l =>
    (insertByCount_perm x (sortByCountDesc l)).trans
      ((sortByCountDesc_perm l).cons x)

theorem insertByCount_sorted (x : String × Nat) :
    ∀ l : List (String × Nat), l.Pairwise (fun a b => b.2 ≤ a.2) →
      (insertByCount x l).Pairwise (fun a b => b.2 ≤ a.2)
  | [], _ => List.pairwise_singleton _ x
  | y :: ys, h => by
    rcases List.pairwise_cons.1 h with ⟨h1, h2⟩
    by_cases hle : y.2 ≤ x.2
    · simp only [insertByCount, if_pos hle]
      refine List.pairwise_cons.2 ⟨?_, h⟩
      intro b hb
      rcases List.mem_cons.1 hb with rfl | hb
      · exact hle
      · exact le_trans (h1 b hb) hle
    · simp only [insertByCount, if_neg hle]
      refine List.pairwise_cons.2 ⟨?_, insertByCount_sorted x ys h2⟩
      intro b hb
      have hb2 : b ∈ x :: ys := (insertByCount_perm x ys).mem_iff.1 hb
      rcases List.mem_cons.1 hb2 with rfl | hb2
      · exact le_of_lt (lt_of_not_le hle)
      · exact h1 b hb2

theorem sortByCountDesc_sorted :
    ∀ l : List (String × Nat),
      (sortByCountDesc l).Pairwise (fun a b => b.2 ≤ a.2)
  | [] => List.Pairwise.nil
  | x :: l => insertByCount_sorted x _ (sortByCountDesc_sorted l)

theorem insertByCount_filter (x : String × Nat) (c : Nat) :
    ∀ l : List (String × Nat),
      (insertByCount x l).filter (fun a => a.2 == c)
        = ((x :: l).filter (fun a => a.2 == c))
  | [] => rfl
  | y :: ys => by
    by_cases hle : y.2 ≤ x.2
    · rw [insertByCount, if_pos hle]
    · have ih := insertByCount_filter x c ys
      rw [insertByCount, if_neg hle]
      by_cases hx : x.2 = c
      · have hy : ¬ y.2 = c := by omega
        have hxb : (x.2 == c) = true := beq_iff_eq.2 hx
        have hyb : (y.2 == c) = false := beq_eq_false_iff_ne.2 hy
        simp [List.filter_cons, hxb, hyb, ih]
      · by_cases hy : y.2 = c
        · have hxb : (x.2 == c) = false := beq_eq_false_iff_ne.2 hx
          have hyb : (y.2 == c) = true := beq_iff_eq.2 hy
          simp [List.filter_cons, hxb, hyb, ih]
        · have hxb : (x.2 == c) = false := beq_eq_false_iff_ne.2 hx
          have hyb : (y.2 == c) = false := beq_eq_false_iff_ne.2 hy
          simp [List.filter_cons, hxb, hyb, ih]

theorem sortByCountDesc_filter (c : Nat) :
    ∀ l : List (String × Nat),
      (sortByCountDesc l).filter (fun a => a.2 == c)
        = l.filter (fun a => a.2 == c)
  | [] => rfl
  | x :: l => by
    have h1 := insertByCount_filter x c (sortByCountDesc l)
    have ih := sortByCountDesc_filter c l
    by_cases hx : x.2 = c
    · simp [List.filter, hx] at h1 ⊢
      rw [sortByCountDesc, h1, ih]
    · simp [List.filter, hx] at h1 ⊢
      rw [sortByCountDesc, h1, ih]

theorem mem_firstCats :
    ∀ (ps : List Product) (c : String),
      c ∈ firstCats ps ↔ c ∈ ps.map Product.category
  | [], c => by simp [firstCats]
  | p :: ps, c => by
    have ih := mem_firstCats ps c
    by_cases hc : c = p.category
    · subst hc
      simp [firstCats]
    · simp [firstCats, List.mem_filter, hc, ih]

theorem firstCats_nodup : ∀ ps : List Product, (firstCats ps).Nodup
  | [] => List.nodup_nil
  | p :: ps => by
    refine List.nodup_cons.2 ⟨?_, (firstCats_nodup ps).filter _⟩
    intro hmem
    rcases List.mem_filter.1 hmem with ⟨_, hne⟩
    simp at hne

theorem firstCats_sublist :
    ∀ ps : List Product, (firstCats ps).Sublist (ps.map Product.category)
  | [] => List.Sublist.refl _
  | p :: ps =>
    ((List.filter_sublist _).trans (firstCats_sublist ps)).cons₂ p.category

theorem firstCats_snoc (p : Product) :
    ∀ ps : List Product,
      firstCats (ps ++ [p]) =
        if p.category ∈ firstCats ps then firstCats ps
        else firstCats ps ++ [p.category]
  | [] => by simp [firstCats]
  | q :: ps => by
    have ih := firstCats_snoc p ps
    have hcons : ∀ l : List Product, firstCats (q :: l)
        = q.category :: (firstCats l).filter (fun c => !(c == q.category)) :=
      fun _ => rfl
    rw [List.cons_append]
    simp only [hcons]
    rw [ih]
    by_cases hmem : p.category ∈ firstCats ps
    · have hmem2 : p.category ∈
          q.category :: (firstCats ps).filter (fun c => !(c == q.category)) := by
        by_cases hpq : p.category = q.category
        · rw [hpq]; exact List.mem_cons_self _ _
        · exact List.mem_cons_of_mem _
            (List.mem_filter.2 ⟨hmem, by simp [hpq]⟩)
      rw [if_pos hmem, if_pos hmem2]
    · by_cases hpq : p.category = q.category
      · have hmem2 : p.category ∈
            q.category :: (firstCats ps).filter (fun c => !(c == q.category)) := by
          rw [hpq]; exact List.mem_cons_self _ _
        rw [if_neg hmem, if_pos hmem2, List.filter_append]
        simp [hpq]
      · have hmem2 : p.category ∉
            q.category :: (firstCats ps).filter (fun c => !(c == q.category)) := by
          intro hc
          rcases List.mem_cons.1 hc with hc | hc
          · exact hpq hc
          · exact hmem (List.mem_filter.1 hc).1
        rw [if_neg hmem, if_neg hmem2, List.filter_append]
        simp [hpq]

theorem mem_categoryCounts (ps : List Product) (c : String) (n : Nat) :
    (c, n) ∈ categoryCounts ps ↔
      c ∈ ps.map Product.category ∧ n = countCat c ps := by
  simp only [categoryCounts]
  constructor
  · intro h
    rcases List.mem_map.1 h with ⟨a, ha, hEq⟩
    have h1 : a = c := congrArg Prod.fst hEq
    subst h1
    have h2 : countCat a ps = n := congrArg Prod.snd hEq
    exact ⟨(mem_firstCats ps a).1 ha, h2.symm⟩
  · rintro ⟨hc, rfl⟩
    exact List.mem_map.2 ⟨c, (mem_firstCats ps c).2 hc, rfl⟩

/-! ### Helper lemmas about insertion -/

theorem insertBatch_length :
    ∀ (n : Nat) (ps : List ProductInput), (insertBatch n ps).length = ps.length
  | _, [] => rfl
  | n, _ :: ps => by simp [insertBatch, insertBatch_length (n + 1) ps]

theorem insertBatch_pid_bounds :
    ∀ (n : Nat) (ps : List ProductInput), ∀ p ∈ insertBatch n ps,
      n ≤ p.pid ∧ p.pid < n + ps.length
  | n, [], p, hp => by simp [insertBatch] at hp
  | n, q :: ps, p, hp => by
    rcases List.mem_cons.1 hp with rfl | hp
    · simp [mkProduct]
    · have := insertBatch_pid_bounds (n + 1) ps p hp
      constructor <;> [omega; (simp only [List.length_cons]; omega)]

theorem insertBatch_strip :
    ∀ (n : Nat) (ps : List ProductInput),
      (insertBatch n ps).map
          (fun p => (p.name, p.price, p.category, p.description, p.variants))
        = ps.map (fun p => (p.name, p.price, p.category, p.description,
            ProductInput.variants p))
  | _, [] => rfl
  | n, q :: ps => by
    simp [insertBatch, mkProduct, insertBatch_strip (n + 1) ps]

theorem insertBatch_variants_mem :
    ∀ (n : Nat) (ps : List ProductInput), ∀ p ∈ insertBatch n ps,
      ∃ q ∈ ps, p.variants = ProductInput.variants q
  | n, [], p, hp => by simp [insertBatch] at hp
  | n, q :: ps, p, hp => by
    rcases List.mem_cons.1 hp with rfl | hp
    · exact ⟨q, List.mem_cons_self q ps, rfl⟩
    · rcases insertBatch_variants_mem (n + 1) ps p hp with ⟨r, hr, hpr⟩
      exact ⟨r, List.mem_cons_of_mem q hr, hpr⟩

/-! ### The five stored sample products -/

def wjStored : Product :=
  { pid := 0, name := "Winter Jacket", price := 200, category := "Apparel",
    description := some "Warm and stylish winter jacket for cold weather",
    variants := [⟨"686f68ed2bf5384209b236b2", "Black", "S", 8⟩,
                 ⟨"686f68ed2bf5384209b236b3", "Gray", "M", 12⟩] }

def spStored : Product :=
  { pid := 1, name := "Smartphone", price := 699, category := "Electronics",
    description := some "Latest model smartphone with advanced features",
    variants := [] }

def rsStored : Product :=
  { pid := 2, name := "Running Shoes", price := 120, category := "Footwear",
    description := some "Comfortable running shoes for daily exercise",
    variants := [⟨"686f68ed2bf5384209b236af", "Red", "M", 10⟩,
                 ⟨"686f68ed2bf5384209b236b1", "Blue", "L", 5⟩] }

def lpStored : Product :=
  { pid := 3, name := "Laptop", price := 1299, category := "Electronics",
    description := some "High-performance laptop for work and gaming",
    variants := [⟨"686f68ed2bf5384209b236c1", "Silver", "15-inch", 3⟩,
                 ⟨"686f68ed2bf5384209b236c2", "Space Gray", "13-inch", 7⟩] }

def ymStored : Product :=
  { pid := 4, name := "Yoga Mat", price := 45, category := "Fitness",
    description := some "Non-slip yoga mat for comfortable practice",
    variants := [⟨"686f68ed2bf5384209b236d1", "Purple", "Standard", 20⟩,
                 ⟨"686f68ed2bf5384209b236d2", "Green", "Extra Thick", 15⟩] }

theorem initStore_products :
    initStore.products = [wjStored, spStored, rsStored, lpStored, ymStored] :=
  rfl

/-! ### Reachability with non-negative stock inputs -/

/-- Every variant stock recorded in the store is non-negative. -/
def stocksNonneg (s : Store) : Prop :=
  ∀ p ∈ s.products, ∀ v ∈ p.variants, 0 ≤ v.stock

/-- Store states reachable from the script's initialization by the five
exercised operations, restricted to runs in which every stock value
supplied from outside (in `insertMany` inputs, `appendVariant` inputs and
`setVariantStock`) is non-negative.  The code itself never validates. -/
inductive ReachableNN : Store → Prop where
  | init : ReachableNN initStore
  | insertStep (s : Store) (ps : List ProductInput) : ReachableNN s →
      (∀ p ∈ ps, ∀ v ∈ ProductInput.variants p, 0 ≤ v.stock) →
      ReachableNN (insertMany s ps)
  | priceStep (s : Store) (q : List Clause) (k : Int) : ReachableNN s →
      ReachableNN (updateOnePrice s q k).2
  | appendStep (s : Store) (q : List Clause) (v : Variant) : ReachableNN s →
      0 ≤ v.stock → ReachableNN (appendVariant s q v).2
  | setStockStep (s : Store) (q : List Clause) (vid : String) (k : Int) :
      ReachableNN s → 0 ≤ k → ReachableNN (setVariantStock s q vid k).2
  | removeStep (s : Store) (q : List Clause) (vid : String) : ReachableNN s →
      ReachableNN (removeVariant s q vid).2

/-! ### Claim theorems -/

/-- C1: for every store state and every `setVariantStock` call whose combined
query (product predicate plus `variants._id`) first matches the product `p`
(products `L` before it do not match, `R` after it are arbitrary), and whose
variant array decomposes as `lv ++ v :: rv` with `v` the first variant
carrying the requested identity, exactly that variant element has its stock
set to the new value: the siblings `lv` and `rv` are returned unchanged, and
every other product of the store is unchanged. -/
theorem setVariantStock_updates_only_matched_variant
    (s : Store) (q : List Clause) (vid : String) (k : Int)
    (L R : List Product) (p : Product) (lv rv : List Variant) (v : Variant)
    (hprod : s.products = L ++ p :: R)
    (hL : ∀ x ∈ L, docMatches (q ++ [Clause.variantsIdEq vid]) x = false)
    (hq : docMatches q p = true)
    (hvars : p.variants = lv ++ v :: rv)
    (hlv : ∀ x ∈ lv, x.vid ≠ vid)
    (hv : v.vid = vid) :
    (setVariantStock s q vid k).1 = true ∧
    (setVariantStock s q vid k).2.products
      = L ++ { p with variants := lv ++ { v with stock := k } :: rv } :: R ∧
    (setVariantStock s q vid k).2.nextId = s.nextId := by
  have hpc : docMatches (q ++ [Clause.variantsIdEq vid]) p = true := by
    rw [docMatches_append, hq, docMatches_variantsIdEq]
    simp [hvars, hv]
  have h := updateFirstAux_first (q ++ [Clause.variantsIdEq vid])
      (fun x => { x with variants := setStockAt vid k x.variants }) p hpc L R hL
  have hset : setStockAt vid k p.variants = lv ++ { v with stock := k } :: rv := by
    rw [hvars]
    exact setStockAt_first vid k v hv lv rv hlv
  have key : updateFirstAux (q ++ [Clause.variantsIdEq vid])
      (fun x => { x with variants := setStockAt vid k x.variants }) s.products
      = (true, L ++ { p with variants := lv ++ { v with stock := k } :: rv } :: R) := by
    rw [hprod, h]
    simp only [hset]
  simp [setVariantStock, updateOne, key]

/-- C1 witness: on the sample data, setting Running Shoes' variant
`...b1` to 8 updates only that variant; the sibling `...af` keeps
stock 10 and all other products are untouched. -/
theorem setVariantStock_sample_witness :
    (setVariantStock initStore [Clause.nameEq "Running Shoes"]
        "686f68ed2bf5384209b236b1" 8).1 = true ∧
    (setVariantStock initStore [Clause.nameEq "Running Shoes"]
        "686f68ed2bf5384209b236b1" 8).2.products
      = [wjStored, spStored,
         { rsStored with variants :=
            [⟨"686f68ed2bf5384209b236af", "Red", "M", 10⟩,
             ⟨"686f68ed2bf5384209b236b1", "Blue", "L", 8⟩] },
         lpStored, ymStored] := by
  have h := setVariantStock_updates_only_matched_variant initStore
      [Clause.nameEq "Running Shoes"] "686f68ed2bf5384209b236b1" 8
      [wjStored, spStored] [lpStored, ymStored] rsStored
      [⟨"686f68ed2bf5384209b236af", "Red", "M", 10⟩] []
      ⟨"686f68ed2bf5384209b236b1", "Blue", "L", 5⟩
      (by decide) (by decide) (by decide) (by decide) (by decide) (by decide)
  refine ⟨h.1, ?_⟩
  rw [h.2.1]
  decide

/-- C2 counterexample: the script's `$push` update performs no stock
validation (the Mongoose `min: 0` bound is commented out), so appending
a variant with negative stock to Winter Jacket is accepted: the call
reports a match and the store now holds a negative stock. -/
theorem appendVariant_negative_stock_accepted :
    (appendVariant initStore [Clause.nameEq "Winter Jacket"]
        ⟨"686f68ed2bf5384209b236b4", "Navy Blue", "L", -1⟩).1 = true ∧
    (appendVariant initStore [Clause.nameEq "Winter Jacket"]
        ⟨"686f68ed2bf5384209b236b4", "Navy Blue", "L", -1⟩).2.products
      ≠ initStore.products ∧
    ∃ p ∈ (appendVariant initStore [Clause.nameEq "Winter Jacket"]
        ⟨"686f68ed2bf5384209b236b4", "Navy Blue", "L", -1⟩).2.products,
      ∃ v ∈ p.variants, v.stock < 0 := by decide

/-- C2 (amended): `appendVariant` performs no stock validation: for every
variant input (negative stock included), when the first matching product
is `p`, the variant is appended unchanged to the end of that product's
variant sequence, the operation reports success, and all other products
are unchanged. -/
theorem appendVariant_appends_without_validation
    (s : Store) (q : List Clause) (v : Variant)
    (L R : List Product) (p : Product)
    (hprod : s.products = L ++ p :: R)
    (hL : ∀ x ∈ L, docMatches q x = false)
    (hp : docMatches q p = true) :
    (appendVariant s q v).1 = true ∧
    (appendVariant s q v).2.products
      = L ++ { p with variants := p.variants ++ [v] } :: R ∧
    (appendVariant s q v).2.nextId = s.nextId := by
  have h := updateFirstAux_first q
      (fun x => { x with variants := x.variants ++ [v] }) p hp L R hL
  have key : updateFirstAux q
      (fun x => { x with variants := x.variants ++ [v] }) s.products
      = (true, L ++ { p with variants := p.variants ++ [v] } :: R) := by
    rw [hprod, h]
  simp [appendVariant, updateOne, key]

/-- C2 witness: the script's own append (line 217-229), the Navy Blue
variant pushed onto Winter Jacket, lands at the end of its variant
sequence. -/
theorem appendVariant_sample_witness :
    (appendVariant initStore [Clause.nameEq "Winter Jacket"]
        ⟨"686f68ed2bf5384209b236b4", "Navy Blue", "L", 6⟩).1 = true ∧
    (appendVariant initStore [Clause.nameEq "Winter Jacket"]
        ⟨"686f68ed2bf5384209b236b4", "Navy Blue", "L", 6⟩).2.products
      = [{ wjStored with variants := wjStored.variants
            ++ [⟨"686f68ed2bf5384209b236b4", "Navy Blue", "L", 6⟩] },
         spStored, rsStored, lpStored, ymStored] := by
  have h := appendVariant_appends_without_validation initStore
      [Clause.nameEq "Winter Jacket"]
      ⟨"686f68ed2bf5384209b236b4", "Navy Blue", "L", 6⟩
      [] [spStored, rsStored, lpStored, ymStored] wjStored
      (by decide) (by decide) (by decide)
  refine ⟨h.1, ?_⟩
  rw [h.2.1]
  decide

/-- C3 counterexample: in one step from initialization, setting Running
Shoes' variant `...b1` to -5 is not rejected: the call reports success
and the resulting (reachable) store holds a variant with negative stock. -/
theorem negative_stock_state_reachable :
    (setVariantStock initStore [Clause.nameEq "Running Shoes"]
        "686f68ed2bf5384209b236b1" (-5)).1 = true ∧
    ∃ p ∈ (setVariantStock initStore [Clause.nameEq "Running Shoes"]
        "686f68ed2bf5384209b236b1" (-5)).2.products,
      ∃ v ∈ p.variants, v.stock < 0 := by decide

/-- C3 (amended): the operations themselves never produce a negative stock:
in every store state reachable from initialization by `insertMany`,
`updateOnePrice`, `appendVariant`, `setVariantStock` and `removeVariant`
in which every externally supplied stock value is non-negative, every
variant's stock is non-negative.  (The code performs no rejection: a
negative supplied stock is stored as given.) -/
theorem reachable_nonneg_inputs_stocks_nonneg :
    ∀ s : Store, ReachableNN s → stocksNonneg s := by
  intro s h
  induction h with
  | init =>
    unfold stocksNonneg
    decide
  | insertStep s ps hs hps ih =>
    intro p hp v hv
    have hp2 : p ∈ s.products ++ insertBatch s.nextId ps := hp
    rcases List.mem_append.1 hp2 with hmem | hmem
    · exact ih p hmem v hv
    · rcases insertBatch_variants_mem _ _ p hmem with ⟨q1, hq1, hvars⟩
      exact hps q1 hq1 v (hvars ▸ hv)
  | priceStep s q k hs ih =>
    intro p hp v hv
    have hp2 : p ∈ (updateFirstAux q (fun x => { x with price := k })
        s.products).2 := hp
    rcases updateFirstAux_mem _ _ _ p hp2 with hmem | ⟨y, hy, rfl⟩
    · exact ih p hmem v hv
    · exact ih y hy v hv
  | appendStep s q v0 hs hv0 ih =>
    intro p hp w hw
    have hp2 : p ∈ (updateFirstAux q
        (fun x => { x with variants := x.variants ++ [v0] }) s.products).2 := hp
    rcases updateFirstAux_mem _ _ _ p hp2 with hmem | ⟨y, hy, rfl⟩
    · exact ih p hmem w hw
    · have hw2 : w ∈ y.variants ++ [v0] := hw
      rcases List.mem_append.1 hw2 with h1 | h1
      · exact ih y hy w h1
      · have hwv : w = v0 := by simpa using h1
        rw [hwv]
        exact hv0
  | setStockStep s q vid k hs hk ih =>
    intro p hp w hw
    have hp2 : p ∈ (updateFirstAux (q ++ [Clause.variantsIdEq vid])
        (fun x => { x with variants := setStockAt vid k x.variants })
        s.products).2 := hp
    rcases updateFirstAux_mem _ _ _ p hp2 with hmem | ⟨y, hy, rfl⟩
    · exact ih p hmem w hw
    · have hw2 : w ∈ setStockAt vid k y.variants := hw
      rcases setStockAt_mem vid k y.variants w hw2 with h1 | ⟨z, hz, rfl⟩
      · exact ih y hy w h1
      · exact hk
  | removeStep s q vid hs ih =>
    intro p hp w hw
    have hp2 : p ∈ (updateFirstAux q
        (fun x => { x with
          variants := List.filter (fun u => !(u.vid == vid)) x.variants })
        s.products).2 := hp
    rcases updateFirstAux_mem _ _ _ p hp2 with hmem | ⟨y, hy, rfl⟩
    · exact ih p hmem w hw
    · have hw2 : w ∈ y.variants.filter (fun u => !(u.vid == vid)) := hw
      exact ih y hy w (List.mem_filter.1 hw2).1

/-- C3 witness: the state after the script's own stock update (Running
Shoes' variant `...b1` set to 8) is reachable with non-negative inputs,
so all its stocks are non-negative. -/
theorem stocksNonneg_after_sample_update :
    stocksNonneg (setVariantStock initStore [Clause.nameEq "Running Shoes"]
      "686f68ed2bf5384209b236b1" 8).2 :=
  reachable_nonneg_inputs_stocks_nonneg _
    (ReachableNN.setStockStep initStore [Clause.nameEq "Running Shoes"]
      "686f68ed2bf5384209b236b1" 8 ReachableNN.init (by decide))

/-- A `$pull` by identity leaves a variant list untouched when the
identity does not occur in it. -/
theorem filter_vid_eq_self (vs : List Variant) (vid : String)
    (h : vid ∉ vs.map Variant.vid) :
    vs.filter (fun v => !(v.vid == vid)) = vs := by
  apply List.filter_eq_self.2
  intro a ha
  simp only [Bool.not_eq_true', beq_eq_false_iff_ne]
  intro hEq
  exact h (by rw [← hEq]; exact List.mem_map_of_mem Variant.vid ha)

/-- C4: `updateOnePrice`, `setVariantStock` and `removeVariant` are silent
no-ops returning false when zero products match the predicate (for
`setVariantStock`, zero matches of the product predicate alone already
suffice); and on a match, `updateOnePrice` and `setVariantStock` modify
only the first matching product in insertion order, leaving all products
before (the non-matching `L`) and after (`R`) unchanged. -/
theorem zero_match_silent_noop_first_match_only :
    (∀ (s : Store) (q : List Clause) (k : Int),
      (∀ p ∈ s.products, docMatches q p = false) →
        updateOnePrice s q k = (false, s)) ∧
    (∀ (s : Store) (q : List Clause) (vid : String) (k : Int),
      (∀ p ∈ s.products, docMatches q p = false) →
        setVariantStock s q vid k = (false, s)) ∧
    (∀ (s : Store) (q : List Clause) (vid : String),
      (∀ p ∈ s.products, docMatches q p = false) →
        removeVariant s q vid = (false, s)) ∧
    (∀ (s : Store) (q : List Clause) (k : Int) (L R : List Product)
        (p : Product),
      s.products = L ++ p :: R → (∀ x ∈ L, docMatches q x = false) →
      docMatches q p = true →
        (updateOnePrice s q k).1 = true ∧
        (updateOnePrice s q k).2.products = L ++ { p with price := k } :: R) ∧
    (∀ (s : Store) (q : List Clause) (vid : String) (k : Int)
        (L R : List Product) (p : Product),
      s.products = L ++ p :: R →
      (∀ x ∈ L, docMatches (q ++ [Clause.variantsIdEq vid]) x = false) →
      docMatches (q ++ [Clause.variantsIdEq vid]) p = true →
        (setVariantStock s q vid k).1 = true ∧
        (setVariantStock s q vid k).2.products
          = L ++ { p with variants := setStockAt vid k p.variants } :: R) := by
  refine ⟨?_, ?_, ?_, ?_, ?_⟩
  · intro s q k h
    have hn := updateFirstAux_nomatch q (fun x => { x with price := k })
      s.products h
    simp [updateOnePrice, updateOne, hn]
  · intro s q vid k h
    have hcomb : ∀ p ∈ s.products,
        docMatches (q ++ [Clause.variantsIdEq vid]) p = false := by
      intro p hp
      rw [docMatches_append, h p hp]
      rfl
    have hn := updateFirstAux_nomatch (q ++ [Clause.variantsIdEq vid])
      (fun x => { x with variants := setStockAt vid k x.variants })
      s.products hcomb
    simp [setVariantStock, updateOne, hn]
  · intro s q vid h
    have hn := updateFirstAux_nomatch q
      (fun x => { x with variants := x.variants.filter (fun u => !(u.vid == vid)) })
      s.products h
    simp [removeVariant, updateOne, hn]
  · intro s q k L R p hprod hL hp
    have h := updateFirstAux_first q (fun x => { x with price := k }) p hp L R hL
    have key : updateFirstAux q (fun x => { x with price := k }) s.products
        = (true, L ++ { p with price := k } :: R) := by
      rw [hprod, h]
    simp [updateOnePrice, updateOne, key]
  · intro s q vid k L R p hprod hL hp
    have h := updateFirstAux_first (q ++ [Clause.variantsIdEq vid])
      (fun x => { x with variants := setStockAt vid k x.variants }) p hp L R hL
    have key : updateFirstAux (q ++ [Clause.variantsIdEq vid])
        (fun x => { x with variants := setStockAt vid k x.variants }) s.products
        = (true, L ++ { p with variants := setStockAt vid k p.variants } :: R) := by
      rw [hprod, h]
    simp [setVariantStock, updateOne, key]

/-- C4 witness: a predicate matching no sample product ("Tablet") makes
each of the three operations return false and leave the store untouched,
while the script's own price update (Smartphone to 649, line 210-213)
modifies only the first matching product. -/
theorem zero_match_sample_witness :
    updateOnePrice initStore [Clause.nameEq "Tablet"] 100 = (false, initStore) ∧
    setVariantStock initStore [Clause.nameEq "Tablet"] "nope" 1
      = (false, initStore) ∧
    removeVariant initStore [Clause.nameEq "Tablet"] "nope"
      = (false, initStore) ∧
    (updateOnePrice initStore [Clause.nameEq "Smartphone"] 649).2.products
      = [wjStored, { spStored with price := 649 }, rsStored, lpStored,
         ymStored] := by
  refine ⟨?_, ?_, ?_, ?_⟩
  · exact zero_match_silent_noop_first_match_only.1 initStore
      [Clause.nameEq "Tablet"] 100 (by decide)
  · exact zero_match_silent_noop_first_match_only.2.1 initStore
      [Clause.nameEq "Tablet"] "nope" 1 (by decide)
  · exact zero_match_silent_noop_first_match_only.2.2.1 initStore
      [Clause.nameEq "Tablet"] "nope" (by decide)
  · have h := zero_match_silent_noop_first_match_only.2.2.2.1 initStore
      [Clause.nameEq "Smartphone"] 649 [wjStored] [rsStored, lpStored, ymStored]
      spStored (by decide) (by decide) (by decide)
    rw [h.2]
    decide

/-- C5: `removeVariant` removes by identity from the first matching
product: the surviving variants form a subsequence (relative order
preserved); when the identity is absent the variant list is untouched;
when it occurs exactly once, precisely that element is removed; and only
the first matching product is modified. -/
theorem removeVariant_removes_preserving_order :
    (∀ (vs : List Variant) (vid : String),
      (vs.filter (fun v => !(v.vid == vid))).Sublist vs) ∧
    (∀ (vs : List Variant) (vid : String), vid ∉ vs.map Variant.vid →
      vs.filter (fun v => !(v.vid == vid)) = vs) ∧
    (∀ (l r : List Variant) (v : Variant) (vid : String),
      v.vid = vid → vid ∉ l.map Variant.vid → vid ∉ r.map Variant.vid →
      (l ++ v :: r).filter (fun u => !(u.vid == vid)) = l ++ r) ∧
    (∀ (s : Store) (q : List Clause) (vid : String) (L R : List Product)
        (p : Product),
      s.products = L ++ p :: R → (∀ x ∈ L, docMatches q x = false) →
      docMatches q p = true →
        (removeVariant s q vid).1 = true ∧
        (removeVariant s q vid).2.products
          = L ++ { p with
              variants := p.variants.filter (fun u => !(u.vid == vid)) } :: R) := by
  refine ⟨?_, ?_, ?_, ?_⟩
  · intro vs vid
    exact List.filter_sublist vs
  · intro vs vid h
    exact filter_vid_eq_self vs vid h
  · intro l r v vid hv hl hr
    rw [List.filter_append, List.filter_cons]
    simp [hv, filter_vid_eq_self l vid hl, filter_vid_eq_self r vid hr]
  · intro s q vid L R p hprod hL hp
    have h := updateFirstAux_first q
      (fun x => { x with variants := x.variants.filter (fun u => !(u.vid == vid)) })
      p hp L R hL
    have key : updateFirstAux q
        (fun x => { x with variants := x.variants.filter (fun u => !(u.vid == vid)) })
        s.products
        = (true, L ++ { p with
            variants := p.variants.filter (fun u => !(u.vid == vid)) } :: R) := by
      rw [hprod, h]
    simp [removeVariant, updateOne, key]

/-- C5 witness: removing Laptop's variant `...c2` (script lines 245-252)
leaves exactly the Silver/15-inch variant `...c1`, in place. -/
theorem removeVariant_sample_witness :
    (removeVariant initStore [Clause.nameEq "Laptop"]
        "686f68ed2bf5384209b236c2").1 = true ∧
    (removeVariant initStore [Clause.nameEq "Laptop"]
        "686f68ed2bf5384209b236c2").2.products
      = [wjStored, spStored, rsStored,
         { lpStored with variants :=
            [⟨"686f68ed2bf5384209b236c1", "Silver", "15-inch", 3⟩] },
         ymStored] := by
  have h := removeVariant_removes_preserving_order.2.2.2 initStore
      [Clause.nameEq "Laptop"] "686f68ed2bf5384209b236c2"
      [wjStored, spStored, rsStored] [ymStored] lpStored
      (by decide) (by decide) (by decide)
  refine ⟨h.1, ?_⟩
  rw [h.2]
  decide

/-- C6: `countByCategory` is sorted by count descending; it is a stable
reordering of the first-appearance grouping (every count class keeps its
first-appearance order); a pair `(c, n)` occurs exactly when `c` is the
category of some product and `n` the number of products in it; group keys
are distinct; groups are in order of each category's first appearance
(append law); and on the sample data the result is exactly
Electronics:2, Apparel:1, Footwear:1, Fitness:1. -/
theorem countByCategory_sorted_desc_stable :
    (∀ s : Store, (countByCategory s).Pairwise (fun a b => b.2 ≤ a.2)) ∧
    (∀ (s : Store) (n : Nat),
      (countByCategory s).filter (fun a => a.2 == n)
        = (categoryCounts s.products).filter (fun a => a.2 == n)) ∧
    (∀ (s : Store) (c : String) (n : Nat),
      (c, n) ∈ countByCategory s ↔
        c ∈ s.products.map Product.category ∧ n = countCat c s.products) ∧
    (∀ ps : List Product, ((categoryCounts ps).map Prod.fst).Nodup) ∧
    (∀ (ps : List Product) (p : Product),
      firstCats (ps ++ [p]) = if p.category ∈ firstCats ps then firstCats ps
        else firstCats ps ++ [p.category]) ∧
    countByCategory initStore
      = [("Electronics", 2), ("Apparel", 1), ("Footwear", 1), ("Fitness", 1)] := by
  refine ⟨?_, ?_, ?_, ?_, ?_, ?_⟩
  · intro s
    exact sortByCountDesc_sorted (categoryCounts s.products)
  · intro s n
    exact sortByCountDesc_filter n (categoryCounts s.products)
  · intro s c n
    rw [countByCategory,
      (sortByCountDesc_perm (categoryCounts s.products)).mem_iff]
    exact mem_categoryCounts s.products c n
  · intro ps
    have : (categoryCounts ps).map Prod.fst = firstCats ps := by
      rw [categoryCounts, List.map_map]
      exact List.map_id (firstCats ps)
    rw [this]
    exact firstCats_nodup ps
  · intro ps p
    exact firstCats_snoc p ps
  · decide

/-- C7: re-running `insertMany` with the same inputs appends a second,
independent batch: the store gains `2 * |ps|` products, the two batches
carry pairwise distinct identities, and both batches store the same
field contents. -/
theorem insertMany_twice_distinct_ids (s : Store) (ps : List ProductInput) :
    (insertMany (insertMany s ps) ps).products.length
      = s.products.length + 2 * ps.length ∧
    (insertMany (insertMany s ps) ps).products
      = s.products ++ insertBatch s.nextId ps
          ++ insertBatch (s.nextId + ps.length) ps ∧
    (∀ p ∈ insertBatch s.nextId ps, ∀ q ∈ insertBatch (s.nextId + ps.length) ps,
      p.pid ≠ q.pid) ∧
    (insertBatch s.nextId ps).map
        (fun p => (p.name, p.price, p.category, p.description, p.variants))
      = (insertBatch (s.nextId + ps.length) ps).map
        (fun p => (p.name, p.price, p.category, p.description, p.variants)) := by
  refine ⟨?_, ?_, ?_, ?_⟩
  · simp [insertMany, insertBatch_length]
    omega
  · simp [insertMany, List.append_assoc]
  · intro p hp q hq
    have h1 := insertBatch_pid_bounds s.nextId ps p hp
    have h2 := insertBatch_pid_bounds (s.nextId + ps.length) ps q hq
    omega
  · rw [insertBatch_strip, insertBatch_strip]

/-- C7 witness: on the sample store, running `insertMany` of the five
sample inputs twice more yields fifteen products, and corresponding
members of the two new batches have distinct identities. -/
theorem insertMany_twice_sample_witness :
    (insertMany (insertMany initStore sampleInputs) sampleInputs).products.length
      = 15 ∧
    ({ wjStored with pid := 5 } : Product).pid
      ≠ ({ wjStored with pid := 10 } : Product).pid := by
  refine ⟨?_, ?_⟩
  · have h := (insertMany_twice_distinct_ids initStore sampleInputs).1
    simpa using h
  · exact (insertMany_twice_distinct_ids initStore sampleInputs).2.2.1
      { wjStored with pid := 5 } (by decide)
      { wjStored with pid := 10 } (by decide)

/-- C8: `find` with the empty predicate returns exactly the stored
products in insertion order: it is the identity on the product list,
insertions append to its result, and right after initialization it
returns the five sample products in their insertion order. -/
theorem find_empty_returns_all_in_order :
    (∀ s : Store, find s [] = s.products) ∧
    (∀ (s : Store) (ps : List ProductInput),
      find (insertMany s ps) [] = find s [] ++ insertBatch s.nextId ps) ∧
    (find initStore []).map Product.name
      = ["Winter Jacket", "Smartphone", "Running Shoes", "Laptop", "Yoga Mat"] := by
  have hall : ∀ s : Store, find s [] = s.products := by
    intro s
    exact List.filter_eq_self.2 (fun a _ => rfl)
  refine ⟨hall, ?_, ?_⟩
  · intro s ps
    rw [hall, hall]
    rfl
  · decide

/-- C9 counterexample: an inclusion projection that requests only `name`
and says nothing about `_id` still returns the product identities —
MongoDB includes the top-level `_id` by default, which is why the
script's own projections pass an explicit `_id: 0` (lines 157, 179). -/
theorem projection_pid_included_by_default :
    (findProj initStore []
        { name := true, price := false, category := false, description := false,
          variantsColor := false, variantsSize := false, variantsStock := false,
          excludeId := false }).map ProjDoc.pid
      = [some 0, some 1, some 2, some 3, some 4] ∧
    ∃ d ∈ findProj initStore []
        { name := true, price := false, category := false, description := false,
          variantsColor := false, variantsSize := false, variantsStock := false,
          excludeId := false }, d.pid ≠ none := by decide

/-- C9 (amended): for every projection, each returned document carries
exactly the requested top-level fields and, inside `variants`, exactly
the requested sub-fields; the product identity is included by default
and omitted exactly when the projection explicitly excludes it
(`_id: 0`), as the exercised calls do. -/
theorem findProj_projects_requested_fields
    (s : Store) (q : List Clause) (pr : Projection) :
    ∀ d ∈ findProj s q pr,
      (d.pid.isSome = !pr.excludeId) ∧
      (d.name.isSome = pr.name) ∧
      (d.price.isSome = pr.price) ∧
      (d.category.isSome = pr.category) ∧
      (d.description.isSome = true → pr.description = true) ∧
      (d.variants.isSome = pr.wantsVariants) ∧
      (∀ vs, d.variants = some vs → ∀ pv ∈ vs,
        pv.color.isSome = pr.variantsColor ∧ pv.size.isSome = pr.variantsSize ∧
        pv.stock.isSome = pr.variantsStock) ∧
      ∃ p ∈ find s q, d = applyProj pr p := by
  intro d hd
  rcases List.mem_map.1 hd with ⟨p, hp, rfl⟩
  refine ⟨?_, ?_, ?_, ?_, ?_, ?_, ?_, ⟨p, hp, rfl⟩⟩
  · cases h : pr.excludeId <;> simp [applyProj, h]
  · cases h : pr.name <;> simp [applyProj, h]
  · cases h : pr.price <;> simp [applyProj, h]
  · cases h : pr.category <;> simp [applyProj, h]
  · cases h : pr.description with
    | false => intro hc; rw [show (applyProj pr p).description = none
        from by simp [applyProj, h]] at hc; exact absurd hc (by simp)
    | true => intro _; rfl
  · cases h : pr.wantsVariants <;> simp [applyProj, h]
  · intro vs hvs pv hpv
    cases h : pr.wantsVariants with
    | false => rw [show (applyProj pr p).variants = none
        from by simp [applyProj, h]] at hvs; exact absurd hvs (by simp)
    | true =>
      rw [show (applyProj pr p).variants = some (p.variants.map (fun v =>
          { color := if pr.variantsColor then some v.color else none,
            size := if pr.variantsSize then some v.size else none,
            stock := if pr.variantsStock then some v.stock else none }))
        from by simp [applyProj, h]] at hvs
      rcases Option.some.inj hvs with rfl
      rcases List.mem_map.1 hpv with ⟨v, hv, rfl⟩
      refine ⟨?_, ?_, ?_⟩
      · cases hc : pr.variantsColor <;> simp [hc]
      · cases hc : pr.variantsSize <;> simp [hc]
      · cases hc : pr.variantsStock <;> simp [hc]

/-- C9 witness: the script's projection of name/price/category with
`_id: 0` (line 157) yields, for Winter Jacket, a document with exactly
those fields and no identity. -/
theorem findProj_sample_witness :
    (ProjDoc.mk none (some "Winter Jacket") (some 200) (some "Apparel")
        none none).pid.isSome = false ∧
    (ProjDoc.mk none (some "Winter Jacket") (some 200) (some "Apparel")
        none none).name.isSome = true := by
  have h := findProj_projects_requested_fields initStore []
      { name := true, price := true, category := true, description := false,
        variantsColor := false, variantsSize := false, variantsStock := false,
        excludeId := true }
      (ProjDoc.mk none (some "Winter Jacket") (some 200) (some "Apparel")
        none none)
      (by decide)
  exact ⟨h.1, h.2.1⟩

/-- C10: when some product matches, `updateOnePrice` sets the price of the
first matching product and changes nothing else: its name, category,
description, variants and identity are preserved, every other product
(`L` before, `R` after) is unchanged, and the identity counter is
unchanged. -/
theorem updateOnePrice_frame
    (s : Store) (q : List Clause) (k : Int) (L R : List Product) (p : Product)
    (hprod : s.products = L ++ p :: R)
    (hL : ∀ x ∈ L, docMatches q x = false)
    (hp : docMatches q p = true) :
    (updateOnePrice s q k).1 = true ∧
    (updateOnePrice s q k).2.products = L ++ { p with price := k } :: R ∧
    ({ p with price := k }).price = k ∧
    ({ p with price := k }).name = p.name ∧
    ({ p with price := k }).category = p.category ∧
    ({ p with price := k }).description = p.description ∧
    ({ p with price := k }).variants = p.variants ∧
    ({ p with price := k }).pid = p.pid ∧
    (updateOnePrice s q k).2.nextId = s.nextId := by
  have h := updateFirstAux_first q (fun x => { x with price := k }) p hp L R hL
  have key : updateFirstAux q (fun x => { x with price := k }) s.products
      = (true, L ++ { p with price := k } :: R) := by
    rw [hprod, h]
  simp [updateOnePrice, updateOne, key]

/-- C10 witness: the script's own price update (Smartphone to 649,
lines 210-213) modifies only Smartphone's price. -/
theorem updateOnePrice_sample_witness :
    (updateOnePrice initStore [Clause.nameEq "Smartphone"] 649).1 = true ∧
    (updateOnePrice initStore [Clause.nameEq "Smartphone"] 649).2.products
      = [wjStored, { spStored with price := 649 }, rsStored, lpStored,
         ymStored] ∧
    ({ spStored with price := 649 }).variants = spStored.variants := by
  have h := updateOnePrice_frame initStore [Clause.nameEq "Smartphone"] 649
      [wjStored] [rsStored, lpStored, ymStored] spStored
      (by decide) (by decide) (by decide)
  refine ⟨h.1, ?_, h.2.2.2.2.2.2.1⟩
  rw [h.2.1]
  decide

end ECommerce
